import Mathlib

set_option maxRecDepth 100000

/-!
Shallow embedding of the DS2438 battery-monitor emulation (`DS2438New.h`,
`DS2438New.cpp`) from the MQ135As1W repository.

Register memory, the per-page CRC array and the two staged voltage pairs are
embedded as total functions `Nat → Nat`; every byte written by the code is
reduced below 256 exactly where the C++ types force it (uint8_t stores,
uint16_t arithmetic, int16_t casts).  Machine integers are `Nat`/`Int` with
explicit wrap-around (`% 2^w`, `&&&`, `>>>`) matching the source expressions.
The 1-Wire hub collaborator is embedded as a byte stream: `duty` consumes
received bytes from an input list (an exhausted list models a failing
`recv`), collects sent bytes, and collects the bytes passed to
`raiseSlaveError`.
-/

/-- `PAGE_COUNT` from `DS2438New.h`. -/
def PAGE_COUNT : Nat := 8

/-- `PAGE_SIZE` from `DS2438New.h`. -/
def PAGE_SIZE : Nat := 8

/-- `MEM_SIZE = PAGE_COUNT * PAGE_SIZE` from `DS2438New.h`. -/
def MEM_SIZE : Nat := PAGE_COUNT * PAGE_SIZE

/-- `REG0_MASK_IAD` from `DS2438New.h`. -/
def REG0_MASK_IAD : Nat := 0x01

/-- `REG0_MASK_CA` from `DS2438New.h`. -/
def REG0_MASK_CA : Nat := 0x02

/-- `REG0_MASK_EE` from `DS2438New.h`. -/
def REG0_MASK_EE : Nat := 0x04

/-- `REG0_MASK_AD` from `DS2438New.h`. -/
def REG0_MASK_AD : Nat := 0x08

/-- `REG0_MASK_TB` from `DS2438New.h`. -/
def REG0_MASK_TB : Nat := 0x10

/-- `REG0_MASK_NVB` from `DS2438New.h`. -/
def REG0_MASK_NVB : Nat := 0x20

/-- `REG0_MASK_ADB` from `DS2438New.h`. -/
def REG0_MASK_ADB : Nat := 0x40

/-- The 64-byte template `MemDS2438` from `DS2438New.h`. -/
def MemDS2438 : List Nat :=
  [0x09, 0x20, 0x14, 0xAC, 0x00, 0x40, 0x01, 0x00,
   0xEC, 0xAB, 0x23, 0x58, 0xFF, 0x08, 0x00, 0xFC,
   0x00, 0x00, 0x00, 0x00, 0x6D, 0x83, 0x03, 0x02,
   0x00, 0x00, 0x00, 0x00, 0x00, 0x00, 0x00, 0x00,
   0x00, 0x00, 0x00, 0x00, 0x00, 0x00, 0x00, 0x00,
   0x00, 0x00, 0x00, 0x00, 0x00, 0x00, 0x00, 0x00,
   0x00, 0x00, 0x00, 0x00, 0x00, 0x00, 0x00, 0x00,
   0x00, 0x00, 0x00, 0x00, 0x00, 0x00, 0x00, 0x00]

/-- One bit-step of the Dallas/Maxim 1-Wire CRC-8 (reflected polynomial
`0x8C`). -/
def crc8step (c inbyte : Nat) : Nat :=
  let mix := (c ^^^ inbyte) &&& 0x01
  let c1 := c >>> 1
  if mix ≠ 0 then c1 ^^^ 0x8C else c1

/-- Eight bit-steps of the CRC-8 over one input byte. -/
def crc8bits : Nat → Nat → Nat → Nat
  | 0, c, _ => c
  | n + 1, c, inbyte => crc8bits n (crc8step c inbyte) (inbyte >>> 1)

/-- Modelled from the spec: the `crc8` routine used by `DS2438New::calcCRC`
lives in the external OneWireHub library (out of scope per the spec, which
only requires an 8-bit CRC with the polynomial of the reference device
family); this is the Dallas/Maxim 1-Wire CRC-8.  All claims relate the
stored checksums to this function, never to particular CRC values, so they
are insensitive to the polynomial choice. -/
def crc8 (bytes : List Nat) : Nat :=
  bytes.foldl (fun c b => crc8bits 8 c b) 0

/-- State of a `DS2438New` object: the 64-byte scratchpad `memory`, the
`PAGE_COUNT + 1`-byte `crc` array, and the staged `vadVoltage` /
`vddVoltage` byte pairs.  Arrays are embedded as total functions; only the
in-bounds indices are ever read or written by the operations. -/
structure DS2438 where
  memory : Nat → Nat
  crc : Nat → Nat
  vadVoltage : Nat → Nat
  vddVoltage : Nat → Nat

/-- Single-cell array store. -/
def memSet (m : Nat → Nat) (i v : Nat) : Nat → Nat :=
  fun j => if j = i then v else m j

/-- The 8 bytes `memory[page*8 .. page*8+7]`, as read by `calcCRC` and by
the Read Scratchpad response. -/
def pageBytesM (m : Nat → Nat) (page : Nat) : List Nat :=
  List.ofFn (fun i : Fin 8 => m (page * 8 + i.val))

/-- `DS2438New::calcCRC`: store `crc8(&memory[page*8], 8)` into
`crc[page]`, guarded by `page < PAGE_COUNT`. -/
def calcCRC (s : DS2438) (page : Nat) : DS2438 :=
  if page < PAGE_COUNT then
    { s with crc := memSet s.crc page (crc8 (pageBytesM s.memory page)) }
  else s

/-- `DS2438New::updateVoltage`: copy the staged pair selected by the
`REG0_MASK_AD` bit of `memory[page*8]` into `memory[page*8+3..4]`. -/
def updateVoltage (s : DS2438) (page : Nat) : DS2438 :=
  let isVDD := s.memory (page * 8) &&& REG0_MASK_AD
  let mem1 :=
    memSet
      (memSet s.memory (page * 8 + 3)
        (if isVDD ≠ 0 then s.vddVoltage 0 else s.vadVoltage 0))
      (page * 8 + 4)
      (if isVDD ≠ 0 then s.vddVoltage 1 else s.vadVoltage 1)
  { s with memory := mem1 }

/-- `DS2438New::clearMemory`: copy the `MemDS2438` template, apply the six
flag updates to byte 0 (`|=` and `&= ~` on a `uint8_t`), then `calcCRC`
every page. -/
def clearMemory (s : DS2438) : DS2438 :=
  let mem0 : Nat → Nat := fun i => MemDS2438.getD i 0
  let b0 :=
    (((((mem0 0 ||| REG0_MASK_IAD) ||| REG0_MASK_CA)
        &&& (0xFF ^^^ REG0_MASK_AD))
        &&& (0xFF ^^^ REG0_MASK_TB))
        &&& (0xFF ^^^ REG0_MASK_NVB))
        &&& (0xFF ^^^ REG0_MASK_ADB)
  let s1 : DS2438 := { s with memory := memSet mem0 0 b0 }
  (List.range PAGE_COUNT).foldl calcCRC s1

/-- `DS2438New::writeMemory`: returns the new state and the `bool` result.
`_length` is truncated to the remaining capacity, the bytes are copied, and
`calcCRC` runs for pages `position>>3 .. (position+length)>>3`. -/
def writeMemory (s : DS2438) (source : List Nat) (length position : Nat) :
    DS2438 × Bool :=
  if MEM_SIZE ≤ position then (s, false)
  else
    let tlen := if MEM_SIZE ≤ position + length then MEM_SIZE - position else length
    let mem1 : Nat → Nat := fun i =>
      if position ≤ i ∧ i < position + tlen then source.getD (i - position) 0
      else s.memory i
    let s1 : DS2438 := { s with memory := mem1 }
    let page_start := position >>> 3
    let page_end := (position + length) >>> 3
    let s2 := (List.range' page_start (page_end + 1 - page_start)).foldl calcCRC s1
    (s2, true)

/-- `DS2438New::readMemory` (a `const` method): returns the unchanged state,
the `bool` result `_length == length`, and the list of copied bytes. -/
def readMemory (s : DS2438) (length position : Nat) :
    DS2438 × Bool × List Nat :=
  if MEM_SIZE ≤ position then (s, false, [])
  else
    let tlen := if MEM_SIZE ≤ position + length then MEM_SIZE - position else length
    (s, decide (tlen = length), (List.range tlen).map (fun i => s.memory (position + i)))

/-- C truncation toward zero of a rational, as performed by
`static_cast<int16_t>` on a floating-point value (`Int.tdiv` is Lean's
truncating division). -/
def ctrunc (q : ℚ) : Int :=
  q.num.tdiv (q.den : Int)

/-- `DS2438New::setTemperature(float)`: the argument is embedded as a
rational; `value = int16_t(temp * 256.0)` is exact whenever `temp * 256` is
exactly representable (it is at every input used by the claims).  The value
is clamped to `[-55*256, 125*256]`, its low byte is stored masked with
`0xF8`, its high byte is stored, and page 0's CRC is recomputed. -/
def setTemperatureF (s : DS2438) (temp : ℚ) : DS2438 :=
  let v0 : Int := ctrunc (temp * 256)
  let value : Int :=
    if 125 * 256 < v0 then 125 * 256
    else if v0 < -55 * 256 then -55 * 256
    else v0
  let v16 : Nat := (value % 65536).toNat
  let mem1 := memSet (memSet s.memory 1 (v16 &&& 0xF8)) 2 ((v16 >>> 8) &&& 0xFF)
  calcCRC { s with memory := mem1 } 0

/-- `DS2438New::setTemperature(int8_t)`: clamp to `[-55, 125]`, store 0 in
the fractional byte and the clamped value (cast to `uint8_t`) in the
integer byte, then recompute page 0's CRC. -/
def setTemperatureI (s : DS2438) (temp : Int) : DS2438 :=
  let value : Int := if 125 < temp then 125 else if temp < -55 then -55 else temp
  let mem1 := memSet (memSet s.memory 1 0) 2 ((value % 256).toNat)
  calcCRC { s with memory := mem1 } 0

/-- Reinterpret a byte pattern as a C `int8_t`. -/
def int8OfPattern (p : Nat) : Int :=
  if p % 256 < 128 then ((p % 256 : Nat) : Int) else ((p % 256 : Nat) : Int) - 256

/-- Reinterpret a 16-bit pattern as a C `int16_t`. -/
def int16OfPattern (p : Nat) : Int :=
  if p < 32768 then (p : Int) else (p : Int) - 65536

/-- `DS2438New::getTemperature`: return `memory[2]` as an `int8_t`. -/
def getTemperature (s : DS2438) : Int :=
  int8OfPattern (s.memory 2)

/-- `DS2438New::setVADVoltage`. -/
def setVADVoltage (s : DS2438) (voltage_10mV : Nat) : DS2438 :=
  let v1 :=
    memSet (memSet s.vadVoltage 0 (voltage_10mV &&& 0xFF)) 1
      ((voltage_10mV >>> 8) &&& 0x03)
  { s with vadVoltage := v1 }

/-- `DS2438New::getVADVoltage`: `(vadVoltage[1] << 8) | vadVoltage[0]`,
returned as a `uint16_t`. -/
def getVADVoltage (s : DS2438) : Nat :=
  ((s.vadVoltage 1 <<< 8) ||| s.vadVoltage 0) % 65536

/-- `DS2438New::setVDDVoltage`. -/
def setVDDVoltage (s : DS2438) (voltage_10mV : Nat) : DS2438 :=
  let v1 :=
    memSet (memSet s.vddVoltage 0 (voltage_10mV &&& 0xFF)) 1
      ((voltage_10mV >>> 8) &&& 0x03)
  { s with vddVoltage := v1 }

/-- `DS2438New::getVDDVoltage`, returned as a `uint16_t`. -/
def getVDDVoltage (s : DS2438) : Nat :=
  ((s.vddVoltage 1 <<< 8) ||| s.vddVoltage 0) % 65536

/-- `DS2438New::setCurrent`: store the int16 bit pattern's low byte in
`memory[5]`, bits 8–9 in `memory[6]`, OR `0xFC` into `memory[6]` for a
negative value, then recompute page 0's CRC. -/
def setCurrent (s : DS2438) (value : Int) : DS2438 :=
  let v16 : Nat := (value % 65536).toNat
  let m5 := v16 &&& 0xFF
  let m6a := (v16 >>> 8) &&& 0x03
  let m6 := if value < 0 then m6a ||| 0xFC else m6a
  calcCRC { s with memory := memSet (memSet s.memory 5 m5) 6 m6 } 0

/-- `DS2438New::getCurrent`: `(memory[6] << 8) | memory[5]` cast to
`int16_t`. -/
def getCurrent (s : DS2438) : Int :=
  int16OfPattern (((s.memory 6 <<< 8) ||| s.memory 5) % 65536)

/-- Result of one `duty` invocation: the new object state, the bytes passed
to `hub->send`, and the bytes passed to `hub->raiseSlaveError`. -/
structure DutyResult where
  state : DS2438
  sent : List Nat
  errors : List Nat

/-- The Write Scratchpad receive loop of `DS2438New::duty` (case `0x4E`):
`for (nByte = page<<3; nByte < (page+1)<<3; ++nByte)` receives one byte per
iteration (breaking when the stream is exhausted) and stores it unless
`0 < nByte < 7`. -/
def writePageLoop (mem : Nat → Nat) (nByte stop : Nat) (data : List Nat) :
    Nat → Nat :=
  match data with
  | [] => mem
  | d :: rest =>
    if nByte < stop then
      writePageLoop (if nByte < 7 ∧ 0 < nByte then mem else memSet mem nByte d)
        (nByte + 1) stop rest
    else mem

/-- `DS2438New::duty`: receive a command byte from `input` and dispatch.
An exhausted input list models `hub->recv` reporting failure; `hub->send`
is modelled as always succeeding. -/
def duty (s : DS2438) (input : List Nat) : DutyResult :=
  match input with
  | [] => ⟨s, [], []⟩
  | cmd :: rest =>
    if cmd = 0xBE then
      match rest with
      | [] => ⟨s, [], []⟩
      | page :: _ =>
        if PAGE_COUNT ≤ page then ⟨s, [], []⟩
        else ⟨s, pageBytesM s.memory page ++ [s.crc page], []⟩
    else if cmd = 0x4E then
      match rest with
      | [] => ⟨s, [], []⟩
      | page :: data =>
        if PAGE_COUNT ≤ page then ⟨s, [], []⟩
        else
          let mem1 := writePageLoop s.memory (page <<< 3) ((page + 1) <<< 3) data
          ⟨calcCRC { s with memory := mem1 } page, [], []⟩
    else if cmd = 0x48 then
      match rest with
      | [] => ⟨s, [], []⟩
      | page :: _ => if PAGE_COUNT ≤ page then ⟨s, [], []⟩ else ⟨s, [], []⟩
    else if cmd = 0xB8 then
      match rest with
      | [] => ⟨s, [], []⟩
      | page :: _ => if PAGE_COUNT ≤ page then ⟨s, [], []⟩ else ⟨s, [], []⟩
    else if cmd = 0x44 then
      ⟨calcCRC s 0, [], []⟩
    else if cmd = 0xB4 then
      ⟨calcCRC (updateVoltage s 0) 0, [], []⟩
    else
      ⟨s, [], [cmd]⟩

/-- A concrete all-zero state, used to instantiate universally quantified
theorems at evaluable inputs. -/
def initState : DS2438 :=
  ⟨fun _ => 0, fun _ => 0, fun _ => 0, fun _ => 0⟩

/-- The CRC integrity invariant: every page's stored checksum matches the
CRC-8 of its current 8 bytes. -/
def CrcInv (s : DS2438) : Prop :=
  ∀ p, p < PAGE_COUNT → s.crc p = crc8 (pageBytesM s.memory p)

instance (s : DS2438) : Decidable (CrcInv s) :=
  inferInstanceAs (Decidable (∀ p, p < PAGE_COUNT → s.crc p = crc8 (pageBytesM s.memory p)))

/-! ### Helper lemmas -/

theorem calcCRC_memory (s : DS2438) (page : Nat) :
    (calcCRC s page).memory = s.memory := by
  unfold calcCRC; split <;> rfl

theorem calcCRC_vad (s : DS2438) (page : Nat) :
    (calcCRC s page).vadVoltage = s.vadVoltage := by
  unfold calcCRC; split <;> rfl

theorem calcCRC_vdd (s : DS2438) (page : Nat) :
    (calcCRC s page).vddVoltage = s.vddVoltage := by
  unfold calcCRC; split <;> rfl

theorem calcCRC_crc_of_lt (s : DS2438) (page : Nat) (h : page < PAGE_COUNT) :
    (calcCRC s page).crc = memSet s.crc page (crc8 (pageBytesM s.memory page)) := by
  unfold calcCRC; rw [if_pos h]

theorem calcCRC_of_ge (s : DS2438) (page : Nat) (h : PAGE_COUNT ≤ page) :
    calcCRC s page = s := by
  unfold calcCRC; rw [if_neg (by omega)]

theorem foldl_calcCRC_memory (l : List Nat) (s : DS2438) :
    (l.foldl calcCRC s).memory = s.memory := by
  induction l generalizing s with
  | nil => rfl
  | cons p t ih => rw [List.foldl_cons, ih, calcCRC_memory]

theorem foldl_calcCRC_vad (l : List Nat) (s : DS2438) :
    (l.foldl calcCRC s).vadVoltage = s.vadVoltage := by
  induction l generalizing s with
  | nil => rfl
  | cons p t ih => rw [List.foldl_cons, ih, calcCRC_vad]

theorem foldl_calcCRC_vdd (l : List Nat) (s : DS2438) :
    (l.foldl calcCRC s).vddVoltage = s.vddVoltage := by
  induction l generalizing s with
  | nil => rfl
  | cons p t ih => rw [List.foldl_cons, ih, calcCRC_vdd]

theorem foldl_calcCRC_crc (l : List Nat) (s : DS2438) (q : Nat) :
    (l.foldl calcCRC s).crc q =
      if q ∈ l ∧ q < PAGE_COUNT then crc8 (pageBytesM s.memory q) else s.crc q := by
  induction l generalizing s with
  | nil => simp
  | cons p t ih =>
    rw [List.foldl_cons, ih, calcCRC_memory]
    by_cases hq8 : q < PAGE_COUNT
    · by_cases hqt : q ∈ t
      · simp [hqt, hq8, List.mem_cons]
      · by_cases hqp : q = p
        · subst hqp
          rw [calcCRC_crc_of_lt s q hq8]
          simp [hqt, hq8, memSet, List.mem_cons]
        · by_cases hp8 : p < PAGE_COUNT
          · rw [calcCRC_crc_of_lt s p hp8]
            simp [hqt, hqp, memSet, List.mem_cons]
          · rw [calcCRC_of_ge s p (by omega)]
            simp [hqt, hqp, List.mem_cons]
    · by_cases hp8 : p < PAGE_COUNT
      · rw [calcCRC_crc_of_lt s p hp8]
        have hqp : q ≠ p := by omega
        simp [hq8, memSet, hqp]
      · rw [calcCRC_of_ge s p (by omega)]
        simp [hq8]

theorem pageBytesM_congr {m1 m2 : Nat → Nat} (page : Nat)
    (h : ∀ i, i < 8 → m1 (page * 8 + i) = m2 (page * 8 + i)) :
    pageBytesM m1 page = pageBytesM m2 page := by
  unfold pageBytesM
  exact congrArg List.ofFn (funext fun i => h i.val i.isLt)

theorem crcInv_calcCRC_update (s s' : DS2438) (P : Nat)
    (hmem : ∀ i, (i < P * 8 ∨ P * 8 + 8 ≤ i) → s'.memory i = s.memory i)
    (hcrc : s'.crc = s.crc) (hInv : CrcInv s) : CrcInv (calcCRC s' P) := by
  intro q hq
  by_cases hP : P < PAGE_COUNT
  · rw [calcCRC_crc_of_lt s' P hP, calcCRC_memory]
    by_cases hqP : q = P
    · subst hqP
      simp [memSet]
    · have h1 : memSet s'.crc P (crc8 (pageBytesM s'.memory P)) q = s.crc q := by
        simp [memSet, hqP, hcrc]
      rw [h1, hInv q hq]
      refine congrArg crc8 (pageBytesM_congr q fun i hi => ?_)
      have hne : q * 8 + i < P * 8 ∨ P * 8 + 8 ≤ q * 8 + i := by
        rcases Nat.lt_or_ge q P with h | h
        · left; omega
        · right; omega
      exact (hmem _ hne).symm
  · rw [calcCRC_of_ge s' P (by omega)]
    rw [hcrc, hInv q hq]
    refine congrArg crc8 (pageBytesM_congr q fun i hi => ?_)
    have hlt2 : q * 8 + i < P * 8 := by
      have h8 : PAGE_COUNT = 8 := rfl
      omega
    exact (hmem _ (Or.inl hlt2)).symm

theorem wpl_outside (data : List Nat) (mem : Nat → Nat) (nByte stop j : Nat)
    (h : j < nByte ∨ stop ≤ j) :
    writePageLoop mem nByte stop data j = mem j := by
  induction data generalizing mem nByte with
  | nil => rfl
  | cons d rest ih =>
    unfold writePageLoop
    split
    · rw [ih _ (nByte + 1) (by omega)]
      split
      · rfl
      · simp only [memSet]
        rw [if_neg (by omega)]
    · rfl

theorem wpl_spec (data : List Nat) (mem : Nat → Nat) (nByte stop j : Nat) :
    writePageLoop mem nByte stop data j =
      if nByte ≤ j ∧ j < stop ∧ j - nByte < data.length ∧ ¬(0 < j ∧ j < 7) then
        data.getD (j - nByte) 0
      else mem j := by
  induction data generalizing mem nByte with
  | nil => simp [writePageLoop]
  | cons d rest ih =>
    unfold writePageLoop
    split
    · rename_i hlt
      rw [ih _ (nByte + 1)]
      by_cases hj : j = nByte
      · subst hj
        rw [if_neg (fun hc => by omega)]
        by_cases hprot : j < 7 ∧ 0 < j
        · rw [if_pos hprot, if_neg (fun hc => hc.2.2.2 ⟨hprot.2, hprot.1⟩)]
        · rw [if_neg hprot]
          have hc : j ≤ j ∧ j < stop ∧ j - j < (d :: rest).length ∧ ¬(0 < j ∧ j < 7) :=
            ⟨Nat.le_refl _, hlt, by simp, fun hx => hprot ⟨hx.2, hx.1⟩⟩
          rw [if_pos hc]
          simp [memSet]
      · have hlen : (d :: rest).length = rest.length + 1 := rfl
        by_cases hcond : nByte + 1 ≤ j ∧ j < stop ∧ j - (nByte + 1) < rest.length ∧ ¬(0 < j ∧ j < 7)
        · rw [if_pos hcond,
            if_pos ⟨by omega, hcond.2.1, by rw [hlen]; omega, hcond.2.2.2⟩]
          have h2 : j - nByte = (j - (nByte + 1)) + 1 := by omega
          rw [h2, List.getD_cons_succ]
        · rw [if_neg hcond]
          have h3 : (if nByte < 7 ∧ 0 < nByte then mem else memSet mem nByte d) j = mem j := by
            split
            · rfl
            · simp only [memSet]; rw [if_neg hj]
          rw [h3, if_neg ?_]
          intro hc
          obtain ⟨hc1, hc2, hc3, hc4⟩ := hc
          rw [hlen] at hc3
          exact hcond ⟨by omega, hc2, by omega, hc4⟩
    · rename_i hge
      rw [if_neg (fun hc => hge (by omega))]

/-! ### Arithmetic bridge lemmas -/

theorem lor_low_byte (a b : Nat) (hb : b < 256) :
    ((a <<< 8) ||| b) = a * 256 + b := by
  have hb2 : b < 2 ^ 8 := lt_of_lt_of_le hb (by norm_num)
  have h := Nat.mul_add_lt_is_or hb2 a
  rw [Nat.shiftLeft_eq, Nat.mul_comm a (2 ^ 8), ← h]

theorem and255_eq_mod (x : Nat) : x &&& 255 = x % 256 := by
  have h255 : (255 : Nat) = 2 ^ 8 - 1 := by norm_num
  rw [h255, Nat.and_pow_two_sub_one_eq_mod]

theorem and3_eq_mod (x : Nat) : x &&& 3 = x % 4 := by
  have h3 : (3 : Nat) = 2 ^ 2 - 1 := by norm_num
  rw [h3, Nat.and_pow_two_sub_one_eq_mod]

theorem shr8_eq_div (x : Nat) : x >>> 8 = x / 256 := by
  rw [Nat.shiftRight_eq_div_pow]

theorem shr2_eq_div (x : Nat) : x >>> 2 = x / 4 := by
  rw [Nat.shiftRight_eq_div_pow]

theorem or252_small : ∀ a : Nat, a < 4 → a ||| 252 = a + 252 := by decide

theorem voltage_mod_aux (v : Nat) :
    ((((v >>> 8) &&& 3) <<< 8) ||| (v &&& 255)) % 65536 = v % 1024 := by
  have hb : v &&& 255 < 256 := Nat.lt_succ_of_le Nat.and_le_right
  rw [lor_low_byte _ _ hb, and255_eq_mod, shr8_eq_div, and3_eq_mod]
  omega

/-! ### Claim theorems -/

/-- C10: for every page index `p ≥ PAGE_COUNT`, `calcCRC` leaves the device
state entirely unchanged; consequently `writeMemory`, whose CRC loop's final
page index can equal the page count, never changes a checksum slot at
index `≥ PAGE_COUNT`. -/
theorem calcCRC_out_of_range_safe (s : DS2438) (p : Nat) (hp : PAGE_COUNT ≤ p)
    (src : List Nat) (len pos : Nat) :
    calcCRC s p = s ∧
      ∀ i, PAGE_COUNT ≤ i → (writeMemory s src len pos).1.crc i = s.crc i := by
  refine ⟨calcCRC_of_ge s p hp, ?_⟩
  intro i hi
  unfold writeMemory
  split
  · rfl
  · dsimp only
    rw [foldl_calcCRC_crc, if_neg (fun hc => by omega)]

theorem calcCRC_out_of_range_safe_witness :
    PAGE_COUNT ≤ 8 ∧ calcCRC initState 8 = initState ∧
      (writeMemory initState [1] 1 0).1.crc 8 = initState.crc 8 :=
  ⟨by decide, (calcCRC_out_of_range_safe initState 8 (by decide) [1] 1 0).1,
    (calcCRC_out_of_range_safe initState 8 (by decide) [1] 1 0).2 8 (by decide)⟩

/-- C7: `readMemory` never mutates the state; it fails on an out-of-bounds
start position; otherwise it copies `min length (MEM_SIZE - position)` bytes
from the register memory and returns `true` exactly when the full request
fits, i.e. `position + length ≤ MEM_SIZE`. -/
theorem readMemory_spec (s : DS2438) (length position : Nat) :
    (readMemory s length position).1 = s
    ∧ (MEM_SIZE ≤ position → (readMemory s length position).2.1 = false)
    ∧ (position < MEM_SIZE →
        (readMemory s length position).2.1 = decide (position + length ≤ MEM_SIZE)
        ∧ (readMemory s length position).2.2 =
            (List.range (min length (MEM_SIZE - position))).map
              (fun i => s.memory (position + i))) := by
  unfold readMemory
  by_cases h : MEM_SIZE ≤ position
  · rw [if_pos h]
    exact ⟨rfl, fun _ => rfl, fun hlt => absurd h (by omega)⟩
  · rw [if_neg h]
    dsimp only
    refine ⟨rfl, fun hge => absurd hge h, fun hlt => ⟨?_, ?_⟩⟩
    · rw [decide_eq_decide]
      split
      · rename_i hbig
        omega
      · rename_i hsmall
        omega
    · have htlen :
          (if MEM_SIZE ≤ position + length then MEM_SIZE - position else length)
            = min length (MEM_SIZE - position) := by
        rw [Nat.min_def]
        split <;> split <;> omega
      rw [htlen]

theorem readMemory_spec_witness :
    (62 : Nat) < MEM_SIZE ∧ (readMemory initState 3 62).2.1 = false :=
  ⟨by decide, ((readMemory_spec initState 3 62).2.2 (by decide)).1.trans (by decide)⟩

/-- C5: for every `v` in the unsigned 10-bit domain and both channels
(VAD and VDD), setting the staged voltage and reading it back returns
exactly `v`. -/
theorem voltage_roundtrip (s : DS2438) (v : Nat) (hv : v ≤ 1023) :
    getVADVoltage (setVADVoltage s v) = v ∧
    getVDDVoltage (setVDDVoltage s v) = v := by
  have h1 : getVADVoltage (setVADVoltage s v) =
      ((((v >>> 8) &&& 3) <<< 8) ||| (v &&& 255)) % 65536 := rfl
  have h2 : getVDDVoltage (setVDDVoltage s v) =
      ((((v >>> 8) &&& 3) <<< 8) ||| (v &&& 255)) % 65536 := rfl
  have hmod : v % 1024 = v := Nat.mod_eq_of_lt (by omega)
  exact ⟨h1.trans ((voltage_mod_aux v).trans hmod),
    h2.trans ((voltage_mod_aux v).trans hmod)⟩

theorem voltage_roundtrip_witness :
    (1023 : Nat) ≤ 1023 ∧ getVADVoltage (setVADVoltage initState 1023) = 1023 ∧
      getVDDVoltage (setVDDVoltage initState 1023) = 1023 :=
  ⟨by decide, (voltage_roundtrip initState 1023 (by decide)).1,
    (voltage_roundtrip initState 1023 (by decide)).2⟩

/-- C9: for every 16-bit input `v`, the voltage setters followed by the
matching getter return `v % 1024` — out-of-domain values are reduced
modulo `2^10` by the encoder, not rejected or clamped. -/
theorem voltage_encoder_wraps (s : DS2438) (v : Nat) (hv : v < 65536) :
    getVADVoltage (setVADVoltage s v) = v % 1024 ∧
    getVDDVoltage (setVDDVoltage s v) = v % 1024 := by
  have h1 : getVADVoltage (setVADVoltage s v) =
      ((((v >>> 8) &&& 3) <<< 8) ||| (v &&& 255)) % 65536 := rfl
  have h2 : getVDDVoltage (setVDDVoltage s v) =
      ((((v >>> 8) &&& 3) <<< 8) ||| (v &&& 255)) % 65536 := rfl
  exact ⟨h1.trans (voltage_mod_aux v), h2.trans (voltage_mod_aux v)⟩

theorem voltage_encoder_wraps_witness :
    (65535 : Nat) < 65536 ∧
      getVADVoltage (setVADVoltage initState 65535) = 65535 % 1024 :=
  ⟨by decide, (voltage_encoder_wraps initState 65535 (by decide)).1⟩

/-- C4: for every `c` in the signed 11-bit domain, `setCurrent` followed by
`getCurrent` returns exactly `c`, and the high current byte's upper six
bits are all set when `c` is negative and all clear when it is
non-negative. -/
theorem current_roundtrip (s : DS2438) (c : Int) (h1 : -1024 ≤ c) (h2 : c ≤ 1023) :
    getCurrent (setCurrent s c) = c ∧
    (setCurrent s c).memory 6 >>> 2 = (if c < 0 then 63 else 0) := by
  have hpat : getCurrent (setCurrent s c) =
      int16OfPattern
        ((((if c < 0 then (((c % 65536).toNat >>> 8) &&& 3) ||| 252
            else ((c % 65536).toNat >>> 8) &&& 3) <<< 8)
          ||| ((c % 65536).toNat &&& 255)) % 65536) := rfl
  have hm6 : (setCurrent s c).memory 6 =
      (if c < 0 then (((c % 65536).toNat >>> 8) &&& 3) ||| 252
       else ((c % 65536).toNat >>> 8) &&& 3) := rfl
  rw [hpat, hm6]
  by_cases hneg : c < 0
  · simp only [if_pos hneg]
    rw [shr8_eq_div, and3_eq_mod, and255_eq_mod]
    rw [or252_small _ (by omega), lor_low_byte _ _ (by omega)]
    have hm : (((c % 65536).toNat : Int)) = c + 65536 := by omega
    constructor
    · simp only [int16OfPattern]
      split
      · exfalso; omega
      · omega
    · rw [shr2_eq_div]
      omega
  · simp only [if_neg hneg]
    rw [shr8_eq_div, and3_eq_mod, and255_eq_mod]
    rw [lor_low_byte _ _ (by omega)]
    have hm : (((c % 65536).toNat : Int)) = c := by omega
    constructor
    · simp only [int16OfPattern]
      split
      · omega
      · exfalso; omega
    · rw [shr2_eq_div]
      omega

theorem current_roundtrip_witness :
    (-1024 : Int) ≤ -5 ∧ (-5 : Int) ≤ 1023 ∧
      getCurrent (setCurrent initState (-5)) = -5 ∧
      (setCurrent initState (-5)).memory 6 >>> 2 = 63 :=
  ⟨by decide, by decide,
    (current_roundtrip initState (-5) (by decide) (by decide)).1,
    ((current_roundtrip initState (-5) (by decide) (by decide)).2).trans (by decide)⟩

/-- C8: calling the float-valued temperature setter with 23.5 and reading
back through `getTemperature` returns exactly 23 — the getter returns only
the integer byte `memory[2]`, so the fraction stored by the setter is not
recoverable through it. -/
theorem temperature_getter_truncates (s : DS2438) :
    getTemperature (setTemperatureF s ((47 : ℚ) / 2)) = 23 ∧
    getTemperature s = int8OfPattern (s.memory 2) := by
  refine ⟨?_, rfl⟩
  have hval : ctrunc (((47 : ℚ) / 2) * 256) = 6016 := by
    have h1 : ((47 : ℚ) / 2) * 256 = 6016 := by norm_num
    rw [h1, ctrunc]
    decide
  unfold setTemperatureF
  rw [hval]
  rfl

/-- C2: during a Write Page transaction on a valid page, received bytes
aimed at page 0 offsets 1–6 are discarded (the old bytes survive) while
later bytes are still consumed and stored; page 0 offsets 0 and 7 and all
bytes of other pages are stored; bytes beyond the received data keep their
prior values; bytes outside the page are untouched; afterwards the page's
CRC matches its new contents. -/
theorem write_page_protection (s : DS2438) (page : Nat) (hpage : page < PAGE_COUNT)
    (data : List Nat) :
    (∀ i, i < 8 → i < data.length →
      (duty s (0x4E :: page :: data)).state.memory (page * 8 + i) =
        (if page = 0 ∧ 1 ≤ i ∧ i ≤ 6 then s.memory (page * 8 + i)
         else data.getD i 0))
    ∧ (∀ i, i < 8 → data.length ≤ i →
      (duty s (0x4E :: page :: data)).state.memory (page * 8 + i) =
        s.memory (page * 8 + i))
    ∧ (∀ j, j < page * 8 ∨ page * 8 + 8 ≤ j →
      (duty s (0x4E :: page :: data)).state.memory j = s.memory j)
    ∧ (duty s (0x4E :: page :: data)).state.crc page =
        crc8 (pageBytesM ((duty s (0x4E :: page :: data)).state.memory) page) := by
  have hnp : ¬ PAGE_COUNT ≤ page := by omega
  have hduty : (duty s (0x4E :: page :: data)).state =
      calcCRC
        { s with memory := writePageLoop s.memory (page <<< 3) ((page + 1) <<< 3) data }
        page := by
    simp [duty, hnp]
  have hsh1 : page <<< 3 = page * 8 := by rw [Nat.shiftLeft_eq]
  have hsh2 : (page + 1) <<< 3 = page * 8 + 8 := by rw [Nat.shiftLeft_eq]; ring
  have hmem : (duty s (0x4E :: page :: data)).state.memory =
      writePageLoop s.memory (page * 8) (page * 8 + 8) data := by
    rw [hduty, calcCRC_memory, hsh1, hsh2]
  refine ⟨?_, ?_, ?_, ?_⟩
  · intro i hi8 hilen
    rw [hmem, wpl_spec]
    have hsub : page * 8 + i - page * 8 = i := by omega
    by_cases hprot : page = 0 ∧ 1 ≤ i ∧ i ≤ 6
    · rw [if_pos hprot, if_neg (fun hc => by omega)]
    · rw [if_neg hprot, if_pos ?_, hsub]
      refine ⟨by omega, by omega, by omega, ?_⟩
      intro hj
      exact hprot ⟨by omega, by omega, by omega⟩
  · intro i hi8 hlen
    rw [hmem, wpl_spec, if_neg (fun hc => by omega)]
  · intro j hj
    rw [hmem, wpl_outside]
    omega
  · rw [hduty, calcCRC_crc_of_lt _ _ hpage, calcCRC_memory]
    simp [memSet]

theorem write_page_protection_witness :
    (0 : Nat) < PAGE_COUNT ∧
      (duty initState [0x4E, 0, 9, 9, 9]).state.memory 1 = 0 ∧
      (duty initState [0x4E, 0, 9, 9, 9]).state.memory 0 = 9 :=
  ⟨by decide,
    ((write_page_protection initState 0 (by decide) [9, 9, 9]).1 1 (by decide)
      (by decide)).trans (by decide),
    ((write_page_protection initState 0 (by decide) [9, 9, 9]).1 0 (by decide)
      (by decide)).trans (by decide)⟩

/-- C3: `duty` signals a protocol error (exactly one `raiseSlaveError` with
the offending byte) precisely when the received command byte is not one of
the six recognized commands, leaving the whole state unchanged; a
recognized command with an out-of-range page index aborts silently with no
error and no response. -/
theorem duty_error_handling (s : DS2438) (cmd : Nat) (hcmd : cmd < 256)
    (rest : List Nat) :
    ((cmd ≠ 0xBE ∧ cmd ≠ 0x4E ∧ cmd ≠ 0x48 ∧ cmd ≠ 0xB8 ∧ cmd ≠ 0x44 ∧ cmd ≠ 0xB4) →
        duty s (cmd :: rest) = ⟨s, [], [cmd]⟩)
    ∧ ((cmd = 0xBE ∨ cmd = 0x4E ∨ cmd = 0x48 ∨ cmd = 0xB8 ∨ cmd = 0x44 ∨ cmd = 0xB4) →
        (duty s (cmd :: rest)).errors = [])
    ∧ (∀ page data, PAGE_COUNT ≤ page →
        (cmd = 0xBE ∨ cmd = 0x4E ∨ cmd = 0x48 ∨ cmd = 0xB8) →
        duty s (cmd :: page :: data) = ⟨s, [], []⟩) := by
  refine ⟨?_, ?_, ?_⟩
  · rintro ⟨h1, h2, h3, h4, h5, h6⟩
    simp [duty, h1, h2, h3, h4, h5, h6]
  · rintro (h | h | h | h | h | h) <;> subst h <;>
      rcases rest with _ | ⟨page, tl⟩ <;>
        simp [duty] <;> split <;> simp
  · intro page tl hp hc
    rcases hc with h | h | h | h <;> subst h <;> simp [duty, hp]

theorem duty_error_handling_witness :
    (0x99 : Nat) < 256 ∧ duty initState [0x99] = ⟨initState, [], [0x99]⟩ :=
  ⟨by decide,
    (duty_error_handling initState 0x99 (by decide) []).1 (by decide)⟩

/-- C6: `writeMemory` fails with no mutation when the start position is out
of bounds; otherwise it writes `min length (MEM_SIZE - position)` source
bytes at `position`, leaves all other bytes unchanged, recomputes the CRC
of every page overlapping the written range, and returns `true`. -/
theorem writeMemory_spec (s : DS2438) (source : List Nat) (length position : Nat) :
    (MEM_SIZE ≤ position → writeMemory s source length position = (s, false))
    ∧ (position < MEM_SIZE →
        (writeMemory s source length position).2 = true
        ∧ (∀ i, position ≤ i → i < position + min length (MEM_SIZE - position) →
            (writeMemory s source length position).1.memory i =
              source.getD (i - position) 0)
        ∧ (∀ i, i < position ∨ position + min length (MEM_SIZE - position) ≤ i →
            (writeMemory s source length position).1.memory i = s.memory i)
        ∧ (∀ p i, position ≤ i → i < position + min length (MEM_SIZE - position) →
            p * 8 ≤ i → i < p * 8 + 8 →
            (writeMemory s source length position).1.crc p =
              crc8 (pageBytesM ((writeMemory s source length position).1.memory) p))) := by
  constructor
  · intro h
    unfold writeMemory
    rw [if_pos h]
  · intro h
    have hn : ¬ MEM_SIZE ≤ position := by omega
    have htlen :
        (if MEM_SIZE ≤ position + length then MEM_SIZE - position else length)
          = min length (MEM_SIZE - position) := by
      rw [Nat.min_def]
      split <;> split <;> omega
    have hps : position >>> 3 = position / 8 := by rw [Nat.shiftRight_eq_div_pow]
    have hpe : (position + length) >>> 3 = (position + length) / 8 := by
      rw [Nat.shiftRight_eq_div_pow]
    have hmem : (writeMemory s source length position).1.memory = fun i =>
        if position ≤ i ∧ i < position + min length (MEM_SIZE - position) then
          source.getD (i - position) 0
        else s.memory i := by
      unfold writeMemory
      rw [if_neg hn]
      dsimp only
      rw [foldl_calcCRC_memory, htlen]
    refine ⟨?_, ?_, ?_, ?_⟩
    · unfold writeMemory
      rw [if_neg hn]
    · intro i hi1 hi2
      rw [hmem]
      dsimp only
      rw [if_pos ⟨hi1, hi2⟩]
    · intro i hi
      rw [hmem]
      dsimp only
      rw [if_neg (fun hc => by omega)]
    · intro p i hi1 hi2 hp1 hp2
      have hcrc : (writeMemory s source length position).1.crc p =
          crc8 (pageBytesM ((writeMemory s source length position).1.memory) p) := by
        have hmm : (writeMemory s source length position).1.crc =
            ((List.range' (position >>> 3)
                ((position + length) >>> 3 + 1 - position >>> 3)).foldl calcCRC
              { s with memory := fun i =>
                  if position ≤ i ∧ i < position + min length (MEM_SIZE - position) then
                    source.getD (i - position) 0
                  else s.memory i }).crc := by
          unfold writeMemory
          rw [if_neg hn]
          dsimp only
          rw [htlen]
        rw [hmm, foldl_calcCRC_crc, hmem]
        rw [if_pos ?_]
        constructor
        · apply List.mem_range'.mpr
          refine ⟨p - position >>> 3, ?_, ?_⟩
          · rw [hps, hpe]
            have hm64 : MEM_SIZE = 64 := rfl
            omega
          · rw [hps]
            have hm64 : MEM_SIZE = 64 := rfl
            omega
        · have hm64 : MEM_SIZE = 64 := rfl
          have hpc : PAGE_COUNT = 8 := rfl
          omega
      exact hcrc

theorem writeMemory_spec_witness :
    (62 : Nat) < MEM_SIZE ∧
      (writeMemory initState [1, 2, 3] 3 62).2 = true ∧
      (writeMemory initState [1, 2, 3] 3 62).1.memory 62 = 1 ∧
      (writeMemory initState [1, 2, 3] 3 62).1.memory 61 = 0 :=
  ⟨by decide,
    ((writeMemory_spec initState [1, 2, 3] 3 62).2 (by decide)).1,
    (((writeMemory_spec initState [1, 2, 3] 3 62).2 (by decide)).2.1 62 (by decide)
      (by decide)).trans (by decide),
    (((writeMemory_spec initState [1, 2, 3] 3 62).2 (by decide)).2.2.1 61
      (Or.inl (by decide))).trans (by decide)⟩

theorem duty_state_cases (s : DS2438) (input : List Nat) :
    (duty s input).state = s
    ∨ (∃ page data, page < PAGE_COUNT ∧
        (duty s input).state =
          calcCRC
            { s with memory :=
                writePageLoop s.memory (page <<< 3) ((page + 1) <<< 3) data }
            page)
    ∨ (duty s input).state = calcCRC s 0
    ∨ (duty s input).state = calcCRC (updateVoltage s 0) 0 := by
  rcases input with _ | ⟨cmd, rest⟩
  · left; rfl
  by_cases h1 : cmd = 0xBE
  · subst h1
    rcases rest with _ | ⟨page, tl⟩
    · left; rfl
    · by_cases hp : PAGE_COUNT ≤ page
      · left; simp [duty, hp]
      · left; simp [duty, hp]
  by_cases h2 : cmd = 0x4E
  · subst h2
    rcases rest with _ | ⟨page, tl⟩
    · left; simp [duty]
    · by_cases hp : PAGE_COUNT ≤ page
      · left; simp [duty, hp]
      · right; left
        refine ⟨page, tl, by omega, ?_⟩
        simp [duty, h1, hp]
  by_cases h3 : cmd = 0x48
  · subst h3
    rcases rest with _ | ⟨page, tl⟩
    · left; simp [duty]
    · by_cases hp : PAGE_COUNT ≤ page
      · left; simp [duty, hp]
      · left; simp [duty, hp]
  by_cases h4 : cmd = 0xB8
  · subst h4
    rcases rest with _ | ⟨page, tl⟩
    · left; simp [duty]
    · by_cases hp : PAGE_COUNT ≤ page
      · left; simp [duty, hp]
      · left; simp [duty, hp]
  by_cases h5 : cmd = 0x44
  · subst h5
    right; right; left
    simp [duty, h1, h2, h3, h4]
  by_cases h6 : cmd = 0xB4
  · subst h6
    right; right; right
    simp [duty, h1, h2, h3, h4, h5]
  · left
    simp [duty, h1, h2, h3, h4, h5, h6]

/-- C1: the per-page CRC invariant — every stored checksum matches the
CRC-8 of its page's current bytes — is established unconditionally by
`clearMemory` and preserved by every state-mutating operation:
`writeMemory`, both temperature setters, `setCurrent`, and any `duty`
invocation (in particular Write Page `0x4E`, Convert Temperature `0x44`
and Convert Voltage `0xB4`). -/
theorem crc_invariant_preserved (s : DS2438) (hInv : CrcInv s)
    (src : List Nat) (len pos : Nat) (t : ℚ) (ti c : Int) (input : List Nat) :
    CrcInv (clearMemory s)
    ∧ CrcInv (writeMemory s src len pos).1
    ∧ CrcInv (setTemperatureF s t)
    ∧ CrcInv (setTemperatureI s ti)
    ∧ CrcInv (setCurrent s c)
    ∧ CrcInv (duty s input).state := by
  refine ⟨?_, ?_, ?_, ?_, ?_, ?_⟩
  · intro q hq
    unfold clearMemory
    dsimp only
    rw [foldl_calcCRC_crc, foldl_calcCRC_memory,
      if_pos ⟨List.mem_range.mpr hq, hq⟩]
  · unfold writeMemory
    split
    · exact hInv
    · rename_i hn
      dsimp only
      intro q hq
      rw [foldl_calcCRC_crc, foldl_calcCRC_memory]
      split
      · rfl
      · rename_i hcond
        rw [hInv q hq]
        refine congrArg crc8 (pageBytesM_congr q fun i hi => ?_)
        dsimp only
        rw [if_neg ?_]
        intro hcc
        apply hcond
        refine ⟨List.mem_range'.mpr ⟨q - pos >>> 3, ?_, ?_⟩, hq⟩
        · have hps : pos >>> 3 = pos / 8 := by rw [Nat.shiftRight_eq_div_pow]
          have hpe : (pos + len) >>> 3 = (pos + len) / 8 := by
            rw [Nat.shiftRight_eq_div_pow]
          rw [hps, hpe]
          split at hcc <;> omega
        · have hps : pos >>> 3 = pos / 8 := by rw [Nat.shiftRight_eq_div_pow]
          rw [hps]
          omega
  · unfold setTemperatureF
    dsimp only
    refine crcInv_calcCRC_update s _ 0 ?_ rfl hInv
    intro i hi
    simp only [memSet]
    rw [if_neg (by omega), if_neg (by omega)]
  · unfold setTemperatureI
    dsimp only
    refine crcInv_calcCRC_update s _ 0 ?_ rfl hInv
    intro i hi
    simp only [memSet]
    rw [if_neg (by omega), if_neg (by omega)]
  · unfold setCurrent
    dsimp only
    refine crcInv_calcCRC_update s _ 0 ?_ rfl hInv
    intro i hi
    simp only [memSet]
    rw [if_neg (by omega), if_neg (by omega)]
  · rcases duty_state_cases s input with h | ⟨page, data, hpage, h⟩ | h | h
    · rw [h]; exact hInv
    · rw [h]
      refine crcInv_calcCRC_update s _ page ?_ rfl hInv
      intro i hi
      apply wpl_outside
      rw [Nat.shiftLeft_eq, Nat.shiftLeft_eq]
      have h8 : (2 : Nat) ^ 3 = 8 := by norm_num
      rw [h8]
      omega
    · rw [h]
      exact crcInv_calcCRC_update s s 0 (fun i hi => rfl) rfl hInv
    · rw [h]
      refine crcInv_calcCRC_update s _ 0 ?_ rfl hInv
      intro i hi
      unfold updateVoltage
      dsimp only
      simp only [memSet]
      rw [if_neg (by omega), if_neg (by omega)]

theorem crc_invariant_preserved_witness :
    CrcInv initState ∧ CrcInv (setCurrent initState 100) :=
  ⟨by decide,
    (crc_invariant_preserved initState (by decide) [] 0 0 0 0 100 []).2.2.2.2.1⟩
